import Mathlib

/-!
Verification development for the sfgarden repository.

This file gives a shallow embedding, in Lean 4, of the four algorithmic
components of the repository: the grid coordinate codec and label
validator (`supabase/functions/_shared/utils/grid.ts`), the
planting-conflict detection of the `sfg_add_planting` tool, the seedling
lifecycle check of `sfg_advance_seedling_phase` (`src/tools/seedlings.ts`),
and the schema-documentation cache (`fetchSchemaInstructions` of the MCP
edge function).  JavaScript strings are modelled as Lean `String`s over
their character lists; the embedding is exact for ASCII data, and numeric
values (`parseInt` results, column indices) are modelled as `Nat`.
-/

namespace SFGarden

/-- Character test for the regex class `[A-Z]`. -/
def isUpperAlpha (c : Char) : Bool := 65 ≤ c.toNat && c.toNat ≤ 90

/-- Character test for the regex class `\d` (ASCII digits). -/
def isAsciiDigit (c : Char) : Bool := 48 ≤ c.toNat && c.toNat ≤ 57

/-- Characters removed by JavaScript `String.prototype.trim()` (ASCII part:
space and the control whitespace characters TAB, LF, VT, FF, CR). -/
def isTsWhitespace (c : Char) : Bool :=
  c.toNat = 32 || c.toNat = 9 || c.toNat = 10 || c.toNat = 11 || c.toNat = 12 || c.toNat = 13

/-- JavaScript `trim()` on a character list: strip leading and trailing
whitespace. -/
def tsTrim (cs : List Char) : List Char :=
  ((cs.dropWhile isTsWhitespace).reverse.dropWhile isTsWhitespace).reverse

/-- JavaScript `toUpperCase()` on one character (ASCII fragment: lowercase
letters are shifted to uppercase, everything else is unchanged). -/
def tsUpperChar (c : Char) : Char :=
  if 97 ≤ c.toNat && c.toNat ≤ 122 then Char.ofNat (c.toNat - 32) else c

/-- Embeds `colToLetter` of `grid.ts` at the character-list level:
repeatedly take `(col - 1) % 26` as the next letter (0 is 'A') and divide,
prepending letters until the index is exhausted. -/
def colToLetterList (col : Nat) : List Char :=
  if h : col = 0 then []
  else colToLetterList ((col - 1) / 26) ++ [Char.ofNat (65 + (col - 1) % 26)]
decreasing_by
  exact Nat.lt_of_le_of_lt (Nat.div_le_self _ _) (Nat.sub_lt (Nat.pos_of_ne_zero h) Nat.one_pos)

/-- The source's `colToLetter`: 1-based column index to letter label
(1 is "A", 26 is "Z", 27 is "AA", ...). -/
def colToLetter (col : Nat) : String := String.mk (colToLetterList col)

/-- The accumulator loop of `letterToCol`: `col = col * 26 + (code - 64)`
over the characters of an uppercase letter string. -/
def letterValue (cs : List Char) : Nat :=
  cs.foldl (fun acc c => acc * 26 + (c.toNat - 64)) 0

/-- The source's `letterToCol`: uppercase the input, reject anything that is
not one or more `[A-Z]` characters (the source returns `NaN`, modelled as
`none`), otherwise fold the bijective base-26 value. -/
def letterToCol (s : String) : Option Nat :=
  let up := s.data.map tsUpperChar
  if up ≠ [] ∧ up.all isUpperAlpha then some (letterValue up) else none

/-- The match of the regex `^([A-Z]+)(\d+)$`: the string must be a nonempty
block of uppercase letters followed by a nonempty block of digits; the two
capture groups are returned. -/
def splitLabelChars (cs : List Char) : Option (List Char × List Char) :=
  let letters := cs.takeWhile isUpperAlpha
  let rest := cs.drop letters.length
  if letters ≠ [] ∧ rest ≠ [] ∧ rest.all isAsciiDigit then some (letters, rest) else none

/-- Value of `parseInt(s, 10)` on an all-digit string. -/
def digitsValue (cs : List Char) : Nat :=
  cs.foldl (fun acc c => acc * 10 + (c.toNat - 48)) 0

/-- The trimmed, uppercased form of a label, the string the source's
`validateLabels` loop body runs its regex on (`label.trim().toUpperCase()`). -/
def normalizeLabel (label : String) : List Char :=
  (tsTrim label.data).map tsUpperChar

/-- One iteration of the loop body of `validateLabels` in `grid.ts`, for a
single label, against a grid of `cols` columns and `rows` rows.  The thrown
error messages are reproduced verbatim; on success the loop body accepts the
label, and the value it validated (the trimmed uppercased label) is returned.
A `NaN` column (impossible here, since the first capture group is nonempty
and all `[A-Z]`) would pass the range check, since `NaN` comparisons are
false in JavaScript; the `none` branch below reflects that. -/
def validateLabel (label : String) (cols rows : Nat) : Except String String :=
  let norm := normalizeLabel label
  match splitLabelChars norm with
  | none =>
      .error ("Invalid coordinate \"" ++ label ++
        "\". Expected format like \"A1\" or \"B3\" (letter column, number row).")
  | some (letters, digits) =>
      let colOpt := letterToCol (String.mk letters)
      let row := digitsValue digits
      let colBad := match colOpt with
        | some col => col < 1 || col > cols
        | none => false
      if colBad then
        .error ("Column \"" ++ String.mk letters ++
          "\" is out of range for this grid (A–" ++ colToLetter cols ++ ").")
      else if row < 1 || row > rows then
        .error ("Row " ++ toString row ++ " is out of range for this grid (1–" ++
          toString rows ++ ").")
      else
        .ok (String.mk norm)

/-- The coordinate a label denotes: the decoded (column index, row) pair of
the parse performed by the `validateLabels` loop body, or `none` when the
label does not match the pattern. -/
def labelColRow (label : String) : Option (Nat × Nat) :=
  match splitLabelChars (normalizeLabel label) with
  | none => none
  | some (letters, digits) => some (letterValue letters, digitsValue digits)

/-- The source's `validateLabels`: iterate the loop body over the labels,
throwing (propagating the error) on the first invalid one. -/
def validateLabels (labels : List String) (cols rows : Nat) : Except String Unit :=
  match labels with
  | [] => .ok ()
  | l :: rest =>
      match validateLabel l cols rows with
      | .error e => .error e
      | .ok _ => validateLabels rest cols rows

/-- Strict alphabetical (code-point) comparison of two character lists of
equal length, used by the specification's column-label ordering. -/
def lexLtChars : List Char → List Char → Bool
  | _, [] => false
  | [], _ :: _ => true
  | a :: as, b :: bs => a.toNat < b.toNat || (a.toNat = b.toNat && lexLtChars as bs)

/-- The specification's ordering of spreadsheet column labels on character
lists: shorter labels sort first, equal lengths compare alphabetically
(A, B, ..., Z, AA, AB, ...). -/
def listColLt (a b : List Char) : Bool :=
  if a.length < b.length then true
  else if b.length < a.length then false
  else lexLtChars a b

/-- The specification's ordering of spreadsheet column labels. -/
def spreadsheetColLt (x y : String) : Bool := listColLt x.data y.data

/-! ### Seedling lifecycle (`src/tools/seedlings.ts`, `sfg_advance_seedling_phase`) -/

/-- The seedling phases, as in the `PHASES` constant of `seedlings.ts`. -/
inductive Phase where
  | sown
  | germinated
  | trueLeaves
  | hardening
  | transplanted
  | failed
deriving DecidableEq, Repr, Fintype

/-- The database string for a phase (the values of the `PHASES` array). -/
def phaseName : Phase → String
  | .sown => "sown"
  | .germinated => "germinated"
  | .trueLeaves => "true_leaves"
  | .hardening => "hardening"
  | .transplanted => "transplanted"
  | .failed => "failed"

/-- The `PHASES` array of `seedlings.ts`, in source order. -/
def PHASES : List Phase :=
  [.sown, .germinated, .trueLeaves, .hardening, .transplanted, .failed]

/-- Position of a phase in the `PHASES` array (`PHASES.indexOf`). -/
def phaseIdx (p : Phase) : Nat := PHASES.indexOf p

/-- The phase-progression check of `sfg_advance_seedling_phase`: a move to
`failed` is always allowed; otherwise the target's index in `PHASES` must be
strictly greater than the current phase's index. -/
def canTransition (current target : Phase) : Bool :=
  if target = Phase.failed then true else phaseIdx current < phaseIdx target

/-- The tool's rejection message, which names both the current and the
requested phase. -/
def cannotMoveMsg (current target : Phase) : String :=
  "Error: Cannot move from \"" ++ phaseName current ++ "\" to \"" ++ phaseName target ++
    "\". Current phase is already at or past target."

/-- A seedling row, restricted to the fields `sfg_advance_seedling_phase`
reads or writes. -/
structure Seedling where
  plant_name : String
  phase : Phase
  phase_changed_at : String
  planting_id : Option String
deriving DecidableEq, Repr

/-- Truthiness of an optional string argument in JavaScript (`planting_id`
is only used when it is present and nonempty). -/
def optTruthy : Option String → Bool
  | some s => !s.isEmpty
  | none => false

/-- Embeds the update performed by `sfg_advance_seedling_phase` once a
seedling has been fetched: reject the move when the target is not `failed`
and its `PHASES` index is at or below the current one; otherwise set the
phase, set `phase_changed_at` to the supplied date (or today's date when
omitted), and set `planting_id` only when the target is `transplanted` and
a truthy `planting_id` argument was supplied (an absent field in the update
object leaves the stored value unchanged). -/
def advanceSeedlingPhase (s : Seedling) (target : Phase) (planting_id : Option String)
    (date : Option String) (today : String) : Except String Seedling :=
  if target ≠ Phase.failed ∧ phaseIdx target ≤ phaseIdx s.phase then
    .error (cannotMoveMsg s.phase target)
  else
    .ok { s with
      phase := target
      phase_changed_at := date.getD today
      planting_id :=
        if target = Phase.transplanted ∧ optTruthy planting_id then planting_id
        else s.planting_id }

/-- Position of a phase in the ordered five-phase progression list of the
specification (`sown, germinated, true_leaves, hardening, transplanted`);
`failed` is not in that list. -/
def phaseIndex5 : Phase → Option Nat
  | .sown => some 0
  | .germinated => some 1
  | .trueLeaves => some 2
  | .hardening => some 3
  | .transplanted => some 4
  | .failed => none

/-- Strict comparison of two optional indices: true only when both are
present and the first is smaller. -/
def optIdxLt : Option Nat → Option Nat → Bool
  | some i, some j => i < j
  | _, _ => false

/-! ### Planting conflict detection (`sfg_add_planting`) -/

/-- A stored planting row, restricted to the fields the conflict query of
`sfg_add_planting` touches. -/
structure PlantingRow where
  square : String
  plant_name : String
  status : String
deriving DecidableEq, Repr

/-- The conflict query of `sfg_add_planting`: the garden's planting rows
with `status = 'active'` whose `square` is in the candidate label list,
returned in stored order (the query has no ORDER BY; stored order is the
model's concretization of the result-set order). -/
def activeIn (stored : List PlantingRow) (labels : List String) : List PlantingRow :=
  stored.filter (fun p => p.status = "active" && labels.contains p.square)

/-- The warning text pushed for one conflicting row. -/
def conflictWarning (p : PlantingRow) : String :=
  p.square ++ " already has active planting: " ++ p.plant_name

/-- The warning-accumulation loop of `sfg_add_planting`: one push per row of
the conflict query result, in result order. -/
def buildWarnings (existing : List PlantingRow) : List String :=
  existing.foldl (fun acc e => acc ++ [conflictWarning e]) []

/-- Conflict detection of `sfg_add_planting` after the candidate squares
have been uppercased: query the active plantings on the candidate labels and
build one warning per returned row. -/
def conflictWarnings (stored : List PlantingRow) (squares : List String) : List String :=
  let labels := squares.map (fun s => String.mk (s.data.map tsUpperChar))
  buildWarnings (activeIn stored labels)

/-- Outcome of `sfg_add_planting` visible to the caller: either an error
text, or the list of created-planting lines together with the (possibly
empty) warning list. -/
def addPlanting (cols rows : Nat) (stored : List PlantingRow) (squares : List String)
    (ids : List String) : Except String (List String × List String) :=
  let labels := squares.map (fun s => String.mk (s.data.map tsUpperChar))
  match validateLabels labels cols rows with
  | .error e => .error ("Error: " ++ e)
  | .ok _ =>
      let warnings := buildWarnings (activeIn stored labels)
      let created := (labels.zip ids).map (fun li => li.2 ++ " (" ++ li.1 ++ ")")
      .ok (created, warnings)

/-! ### Schema documentation cache (`fetchSchemaInstructions` in the MCP edge function) -/

/-- A row of the columns catalog query, as in the `ColumnInfo` interface. -/
structure ColumnInfo where
  table_name : String
  column_name : String
  data_type : String
  is_nullable : String
  column_default : Option String
deriving DecidableEq, Repr

/-- A row of the foreign-key catalog query. -/
structure ForeignKey where
  table_name : String
  column_name : String
  foreign_table : String
  foreign_column : String
deriving DecidableEq, Repr

/-- A row of the check-constraint catalog query. -/
structure CheckConstraint where
  table_name : String
  constraint_name : String
  definition : String
deriving DecidableEq, Repr

/-- The `STATIC_INSTRUCTIONS` constant: the schema-less guidance text. -/
def STATIC_INSTRUCTIONS : String :=
  "You are helping a user manage their square foot gardens. Always call get_schema before writing SQL queries to discover the database structure, rules, and query patterns."

/-- The `formatType` helper: one type-name abbreviation, identity elsewhere. -/
def formatType (dataType : String) : String :=
  if dataType = "timestamp with time zone" then "timestamptz" else dataType

/-- Whether `needle` occurs as a substring of `hay`
(JavaScript `String.prototype.includes`). -/
def containsSub (hay needle : List Char) : Bool :=
  needle.isPrefixOf hay ||
    match hay with
    | [] => false
    | _ :: rest => containsSub rest needle

/-- Replace the first occurrence of `pat` by `repl`
(JavaScript `String.prototype.replace` with a string pattern). -/
def replaceFirstL (pat repl : List Char) : List Char → List Char
  | [] => if pat.isPrefixOf ([] : List Char) then repl else []
  | c :: rest =>
      if pat.isPrefixOf (c :: rest) then repl ++ (c :: rest).drop pat.length
      else c :: replaceFirstL pat repl rest

/-- The global replacement of the regex `'([^']*)'::text` by its capture
group, by a left-to-right scan: at a quote, the characters up to the next
quote are the candidate capture; when `'::text` follows, the quoted wrapper
and the `::text` suffix are dropped and the scan resumes after them,
otherwise the quote is kept and the scan resumes at the next character. -/
def replaceQuotedText (cs : List Char) : List Char :=
  match cs with
  | [] => []
  | c :: rest =>
      if hq : c = '\'' then
        let inner := rest.takeWhile (fun d => !(d = '\''))
        match hafter : rest.drop inner.length with
        | '\'' :: ':' :: ':' :: 't' :: 'e' :: 'x' :: 't' :: tail =>
            inner ++ replaceQuotedText tail
        | _ => c :: replaceQuotedText rest
      else c :: replaceQuotedText rest
termination_by cs.length
decreasing_by
  · have hlen : (rest.drop inner.length).length ≤ rest.length :=
      by simpa using Nat.sub_le rest.length inner.length
    rw [hafter] at hlen
    simp only [List.length_cons] at hlen ⊢
    omega
  · simp
  · simp

/-- JavaScript `String.prototype.split(",")` on a character list. -/
def splitOnComma (cs : List Char) : List (List Char) :=
  match cs with
  | [] => [[]]
  | c :: rest =>
      if c = ',' then [] :: splitOnComma rest
      else
        match splitOnComma rest with
        | [] => [[c]]
        | g :: gs => (c :: g) :: gs

/-- The match attempt of the regex `ANY\s*\(ARRAY\[(.*?)\]` at the head of
the list: the literal `ANY`, optional whitespace, the literal `(ARRAY[`,
then a lazy capture running to the first `]` (the dot of the regex does not
cross a line break). -/
def tryAnyArrayAt (cs : List Char) : Option (List Char) :=
  if "ANY".data.isPrefixOf cs then
    let rest := (cs.drop 3).dropWhile isTsWhitespace
    if "(ARRAY[".data.isPrefixOf rest then
      let body := rest.drop 7
      let cap := body.takeWhile (fun c => !(c = ']') && !(c = '\n') && !(c = '\r'))
      match body.drop cap.length with
      | ']' :: _ => some cap
      | _ => none
    else none
  else none

/-- Scan for the first position where `tryAnyArrayAt` succeeds. -/
def findAnyArray : List Char → Option (List Char)
  | [] => none
  | c :: rest =>
      match tryAnyArrayAt (c :: rest) with
      | some cap => some cap
      | none => findAnyArray rest

/-- The source's `parseCheckValues`: extract the capture of
`ANY\s*\(ARRAY\[(.*?)\]` from a constraint definition, split it on commas,
and trim each piece and strip every `'...'::text` wrapper in it. -/
def parseCheckValues (definition : String) : Option (List String) :=
  match findAnyArray definition.data with
  | none => none
  | some cap =>
      some ((splitOnComma cap).map (fun v => String.mk (replaceQuotedText (tsTrim v))))

/-- Character test for the regex class `[a-z]`. -/
def isLowerAlpha (c : Char) : Bool := 97 ≤ c.toNat && c.toNat ≤ 122

/-- The column-name extraction `^[a-z]+_(.+?)_check$` from a constraint
name: a nonempty lowercase run, an underscore, a nonempty middle without
line breaks, and the suffix `_check`. -/
def colMatchName (name : String) : Option String :=
  let cs := name.data
  let run := cs.takeWhile isLowerAlpha
  if run = [] then none
  else
    match cs.drop run.length with
    | '_' :: tail =>
        let middle := tail.take (tail.length - 6)
        let suffix := tail.drop (tail.length - 6)
        if tail.length ≥ 7 ∧ suffix = "_check".data ∧
            middle.all (fun c => !(c = '\n') && !(c = '\r')) then
          some (String.mk middle)
        else none
    | _ => none

/-- The `table.column` key used by the foreign-key map. -/
def fkKey (fk : ForeignKey) : String := fk.table_name ++ "." ++ fk.column_name

/-- Lookup in the foreign-key map built by `Map.set` over the rows in order
(a later row with the same key overwrites an earlier one). -/
def fkLookup (fks : List ForeignKey) (key : String) : Option ForeignKey :=
  (fks.filter (fun fk => fkKey fk = key)).getLast?

/-- The entry a check constraint contributes to the enumeration map: only
constraints whose definition parses as an enumeration and whose name yields
a column contribute. -/
def checkEnumEntry (ck : CheckConstraint) : Option (String × List String) :=
  match parseCheckValues ck.definition with
  | none => none
  | some vs =>
      match colMatchName ck.constraint_name with
      | none => none
      | some col => some (ck.table_name ++ "." ++ col, vs)

/-- Lookup in the enumeration map (again, last `Map.set` wins). -/
def checkLookup (checks : List CheckConstraint) (key : String) : Option (List String) :=
  (((checks.filterMap checkEnumEntry).filter (fun e => e.1 = key)).getLast?).map (fun e => e.2)

/-- Rendering of a column default: absent (or empty, which renders the
same) defaults give the empty string; otherwise the first `::text` and the
first `(gen_random_uuid())` wrapper are rewritten. -/
def formatDefault : Option String → String
  | none => ""
  | some d =>
      String.mk (replaceFirstL "(gen_random_uuid())".data "gen_random_uuid()".data
        (replaceFirstL "::text".data [] d.data))

/-- Strip the `CHECK (` prefix and the final `)` from a constraint
definition (the two anchored regex replaces). -/
def stripCheckWrapper (cs : List Char) : List Char :=
  let s1 := if "CHECK (".data.isPrefixOf cs then cs.drop 7 else cs
  if s1.getLast? = some ')' then s1.dropLast else s1

/-- The notes cell for one column: a `PK` marker on `id`, the foreign-key
annotation, the enumeration values, then every remaining (non-enumeration)
check constraint of the table whose text mentions the column. -/
def columnNotes (tableName : String) (col : ColumnInfo) (fks : List ForeignKey)
    (checks : List CheckConstraint) : List String :=
  (if col.column_name = "id" then ["PK"] else []) ++
  (match fkLookup fks (tableName ++ "." ++ col.column_name) with
    | some fk => ["FK → " ++ fk.foreign_table ++ "(" ++ fk.foreign_column ++ ")"]
    | none => []) ++
  (match checkLookup checks (tableName ++ "." ++ col.column_name) with
    | some vs => [String.intercalate ", " (vs.map (fun v => "'" ++ v ++ "'"))]
    | none => []) ++
  ((checks.filter (fun ck =>
      ck.table_name = tableName && (parseCheckValues ck.definition).isNone &&
        containsSub ck.definition.data col.column_name.data)).map
    (fun ck => String.mk (stripCheckWrapper ck.definition.data)))

/-- One markdown table row for a column. -/
def columnRow (tableName : String) (col : ColumnInfo) (fks : List ForeignKey)
    (checks : List CheckConstraint) : String :=
  "| " ++ col.column_name ++ " | " ++ formatType col.data_type ++ " | " ++
    (if col.is_nullable = "YES" then "yes" else "no") ++ " | " ++
    formatDefault col.column_default ++ " | " ++
    String.intercalate "; " (columnNotes tableName col fks checks) ++ " |"

/-- The section for one table, or nothing when the catalog reported no
columns for it (the `continue` branch). -/
def tableSection (tableName : String) (columns : List ColumnInfo) (fks : List ForeignKey)
    (checks : List CheckConstraint) : Option String :=
  let cols := columns.filter (fun c => c.table_name = tableName)
  if cols.isEmpty then none
  else
    some (String.intercalate "\n"
      (("### " ++ tableName) ::
        "| Column | Type | Nullable | Default | Notes |" ::
        "|--------|------|----------|---------|-------|" ::
        cols.map (fun c => columnRow tableName c fks checks)))

/-- The fixed table order of the generated documentation. -/
def tableOrder : List String := ["gardens", "plantings", "harvests", "seedlings", "notes"]

/-- The source's `buildSchemaMarkdown`: the sections of the five domain
tables, in fixed order, joined by blank lines. -/
def buildSchemaMarkdown (columns : List ColumnInfo) (fks : List ForeignKey)
    (checks : List CheckConstraint) : String :=
  String.intercalate "\n\n" (tableOrder.filterMap (fun t => tableSection t columns fks checks))

/-- The static behavioral preamble the successful path prepends to the
generated table sections (the template literal assigned to `cachedSchema`,
up to the `schemaMarkdown` interpolation point). -/
def instructionsPreamble : String :=
  "## Row Level Security\n\nAll tables have RLS enabled. Queries are automatically scoped to the authenticated user — you NEVER need to filter by user_id in SELECT/UPDATE/DELETE queries. For INSERTs into tables with a `user_id` column (gardens, seedlings), use `auth.uid()`.\n\n## Coordinate System\n\nGardens use an alphanumeric grid: columns are letters (A, B, C, …) and rows are numbers (1, 2, 3, …).\nFor example, \"B3\" means column B, row 3. A 4×4 garden spans columns A–D and rows 1–4.\n\n## Writing Data (INSERT / UPDATE / DELETE)\n\nFor write operations, wrap them in a CTE so results are returned:\n\n```sql\nWITH new_row AS (\n  INSERT INTO plantings (garden_id, square, plant_name, variety, count, planted_at)\n  VALUES ('...', 'A1', 'Tomato', 'Roma', 1, CURRENT_DATE)\n  RETURNING *\n)\nSELECT * FROM new_row\n```\n\n## Important Rules\n\n- IDs are auto-generated UUIDs — do NOT fabricate IDs, just omit the `id` column on INSERT.\n- Seedling phases must progress in order: sown → germinated → true_leaves → hardening → transplanted. A seedling can be marked 'failed' from any phase.\n- When transplanting a seedling, first create the planting, then update the seedling's phase and planting_id.\n- A single square can have multiple plantings (succession planting).\n- Seedlings and plantings are separate concepts: seedlings track indoor growth, plantings track what is in the garden.\n- Always use `id` (primary key) in WHERE clauses for UPDATE and DELETE queries — never filter by name, square, or other non-unique columns. If you don't know the ID, run a SELECT first to find the correct record, then use the returned `id` in your write query.\n\n## Database Schema\n\n"

/-- The full documentation string cached on a successful computation. -/
def fullInstructions (schemaMarkdown : String) : String :=
  instructionsPreamble ++ schemaMarkdown

/-- The outcome of the three catalog queries issued on one call. -/
structure CatalogFetch where
  columnsRes : Except String (List ColumnInfo)
  fkRes : Except String (List ForeignKey)
  checksRes : Except String (List CheckConstraint)

/-- Whether an individual query result carries an error. -/
def resHasError {α : Type} : Except String α → Bool
  | .error _ => true
  | .ok _ => false

/-- The `columnsRes.error || fkRes.error || checksRes.error` test. -/
def hasCatalogError (r : CatalogFetch) : Bool :=
  resHasError r.columnsRes || resHasError r.fkRes || resHasError r.checksRes

/-- JavaScript truthiness of the `cachedSchema` cell (`null` and the empty
string are falsy). -/
def cachedTruthy : Option String → Bool
  | some s => !s.isEmpty
  | none => false

/-- One call of `fetchSchemaInstructions`, as a transition on the
process-wide `cachedSchema` cell: return the cache when it is truthy;
otherwise, when any catalog query failed, return `STATIC_INSTRUCTIONS` and
leave the cell untouched; otherwise build the documentation, store it in
the cell and return it.  The function never throws: every path returns a
string. -/
def fetchSchemaInstructions (cached : Option String) (r : CatalogFetch) :
    String × Option String :=
  if cachedTruthy cached then (cached.getD "", cached)
  else
    match r.columnsRes, r.fkRes, r.checksRes with
    | .ok cols, .ok fks, .ok cks =>
        let doc := fullInstructions (buildSchemaMarkdown cols fks cks)
        (doc, some doc)
    | _, _, _ => (STATIC_INSTRUCTIONS, cached)

/-- A sequence of calls, threading the cache cell through; returns the list
of returned strings and the final cell. -/
def runCalls (cached : Option String) : List CatalogFetch → List String × Option String
  | [] => ([], cached)
  | r :: rs =>
      let step := fetchSchemaInstructions cached r
      let rest := runCalls step.2 rs
      (step.1 :: rest.1, rest.2)

/-! ## Theorems -/

/-- C1, counterexample: the claim states `canTransition(transplanted, failed)
== false`, but the code's progression check is skipped whenever the target is
`failed`, so the transition is accepted. -/
theorem c1_counterexample : canTransition Phase.transplanted Phase.failed = true := by
  decide

/-- C1, amended: from `failed` the only accepted transition is the idempotent
re-marking as `failed`; from `transplanted` every transition is likewise
rejected except marking the seedling as `failed`, which is accepted. -/
theorem c1_terminal_states :
    ∀ t : Phase,
      (canTransition Phase.failed t = true ↔ t = Phase.failed) ∧
      (canTransition Phase.transplanted t = true ↔ t = Phase.failed) := by
  decide

/-- C2: `canTransition(current, target)` is true iff the target is `failed`
or both phases sit in the ordered five-phase list with the target strictly
later; any rejected pair produces the `InvalidTransition` error text, which
carries both the current and the requested phase. -/
theorem c2_canTransition_spec :
    ∀ c t : Phase,
      (canTransition c t = true ↔
        (t = Phase.failed ∨ optIdxLt (phaseIndex5 c) (phaseIndex5 t) = true)) ∧
      (∀ (s : Seedling) (pid date : Option String) (today : String),
        s.phase = c → canTransition c t = false →
        advanceSeedlingPhase s t pid date today =
          .error ("Error: Cannot move from \"" ++ phaseName c ++ "\" to \"" ++
            phaseName t ++ "\". Current phase is already at or past target.")) := by
  intro c t
  refine ⟨by revert c t; decide, ?_⟩
  intro s pid date today hphase hfalse
  subst hphase
  have ht : t ≠ Phase.failed := by
    intro h
    subst h
    simp [canTransition] at hfalse
  have hle : phaseIdx t ≤ phaseIdx s.phase := by
    simp [canTransition, ht] at hfalse
    omega
  simp [advanceSeedlingPhase, ht, hle, cannotMoveMsg]

/-- C2 witness: the rejected pair (germinated, sown) yields the error text
naming both phases, and the acceptance condition is exercised at a concrete
pair. -/
theorem c2_witness :
    canTransition Phase.germinated Phase.sown = false ∧
    advanceSeedlingPhase ⟨"Tomato", Phase.germinated, "2024-01-01", none⟩ Phase.sown
        none none "2024-05-01" =
      .error ("Error: Cannot move from \"" ++ phaseName Phase.germinated ++ "\" to \"" ++
        phaseName Phase.sown ++ "\". Current phase is already at or past target.") :=
  ⟨by decide,
    (c2_canTransition_spec Phase.germinated Phase.sown).2
      ⟨"Tomato", Phase.germinated, "2024-01-01", none⟩ none none "2024-05-01" rfl (by decide)⟩

/-- C7: on an accepted transition the update sets the phase to the target and
the phase-change date to the supplied date (the invocation date when
omitted); the linked-planting field is taken from the supplied reference
exactly when the target is `transplanted` and a (truthy) reference was
supplied, and is left unchanged otherwise; in particular a transition into
`transplanted` with no reference is still accepted. -/
theorem c7_applyTransition (s : Seedling) (target : Phase) (pid date : Option String)
    (today : String) (h : canTransition s.phase target = true) :
    ∃ s2 : Seedling,
      advanceSeedlingPhase s target pid date today = .ok s2 ∧
      s2.phase = target ∧
      s2.phase_changed_at = (match date with | some d => d | none => today) ∧
      s2.plant_name = s.plant_name ∧
      ((target = Phase.transplanted ∧ optTruthy pid = true) → s2.planting_id = pid) ∧
      (¬ (target = Phase.transplanted ∧ optTruthy pid = true) →
        s2.planting_id = s.planting_id) := by
  have hcond : ¬ (target ≠ Phase.failed ∧ phaseIdx target ≤ phaseIdx s.phase) := by
    by_cases hf : target = Phase.failed
    · simp [hf]
    · simp only [canTransition, if_neg hf, decide_eq_true_eq] at h
      intro hc
      omega
  have heq : advanceSeedlingPhase s target pid date today =
      .ok { s with
        phase := target
        phase_changed_at := date.getD today
        planting_id :=
          if target = Phase.transplanted ∧ optTruthy pid then pid else s.planting_id } := by
    simp [advanceSeedlingPhase, hcond]
  refine ⟨_, heq, rfl, ?_, rfl, ?_, ?_⟩
  · cases date <;> rfl
  · intro hset
    simp [if_pos hset]
  · intro hnot
    simp [if_neg hnot]

/-- C7 witness: a hardening seedling moved to `transplanted` with a supplied
planting reference (link set), and another moved to `transplanted` with no
reference (accepted, link unchanged). -/
theorem c7_witness :
    (∃ s2 : Seedling,
      advanceSeedlingPhase ⟨"Tomato", Phase.hardening, "2024-01-01", none⟩
          Phase.transplanted (some "p1") (some "2024-06-02") "2024-06-03" = .ok s2 ∧
      s2.phase = Phase.transplanted ∧ s2.phase_changed_at = "2024-06-02" ∧
      s2.planting_id = some "p1") ∧
    (∃ s3 : Seedling,
      advanceSeedlingPhase ⟨"Basil", Phase.hardening, "2024-01-01", some "old"⟩
          Phase.transplanted none none "2024-06-03" = .ok s3 ∧
      s3.phase = Phase.transplanted ∧ s3.phase_changed_at = "2024-06-03" ∧
      s3.planting_id = some "old") := by
  constructor
  · obtain ⟨s2, h1, h2, h3, _, h5, _⟩ :=
      c7_applyTransition ⟨"Tomato", Phase.hardening, "2024-01-01", none⟩
        Phase.transplanted (some "p1") (some "2024-06-02") "2024-06-03" (by decide)
    exact ⟨s2, h1, h2, h3, h5 ⟨rfl, by decide⟩⟩
  · obtain ⟨s3, h1, h2, h3, _, _, h6⟩ :=
      c7_applyTransition ⟨"Basil", Phase.hardening, "2024-01-01", some "old"⟩
        Phase.transplanted none none "2024-06-03" (by decide)
    exact ⟨s3, h1, h2, h3, h6 (by simp [optTruthy])⟩

/-- A fold that pushes one element per input row builds the mapped list. -/
theorem foldl_push_eq_map {α β : Type} (f : α → β) :
    ∀ (l : List α) (acc : List β), l.foldl (fun a e => a ++ [f e]) acc = acc ++ l.map f := by
  intro l
  induction l with
  | nil => intro acc; simp
  | cons x xs ih => intro acc; simp [ih]

/-- The warning loop emits exactly the mapped warning per result row. -/
theorem buildWarnings_eq_map (l : List PlantingRow) :
    buildWarnings l = l.map conflictWarning := by
  simpa using foldl_push_eq_map conflictWarning l []

/-- C3, counterexample: with stored active plantings A1 (Tomato) then A2
(Basil) and candidate list ["A2", "A1"], the warnings come out in the order
of the stored plantings, not in the order of the candidate list as the claim
states. -/
theorem c3_counterexample :
    conflictWarnings
        [⟨"A1", "Tomato", "active"⟩, ⟨"A2", "Basil", "active"⟩] ["A2", "A1"] =
      ["A1 already has active planting: Tomato", "A2 already has active planting: Basil"] ∧
    conflictWarnings
        [⟨"A1", "Tomato", "active"⟩, ⟨"A2", "Basil", "active"⟩] ["A2", "A1"] ≠
      ["A2 already has active planting: Basil", "A1 already has active planting: Tomato"] := by
  exact ⟨rfl, by decide⟩

/-- C3, amended: conflict detection produces exactly one warning of the form
"label already has active planting: name" per active planting whose square is
in the candidate list (all ties reported), in the order in which the store
returns the matching plantings (their stored order in this model) rather than
candidate order; it never blocks or errors the write; an empty candidate list
produces no warnings. -/
theorem c3_conflict_detection (stored : List PlantingRow) (squares ids : List String)
    (cols rows : Nat) :
    conflictWarnings stored squares =
      (stored.filter (fun p => p.status = "active" &&
        (squares.map (fun s => String.mk (s.data.map tsUpperChar))).contains p.square)).map
        (fun p => p.square ++ " already has active planting: " ++ p.plant_name) ∧
    conflictWarnings stored [] = [] ∧
    (validateLabels (squares.map (fun s => String.mk (s.data.map tsUpperChar))) cols rows =
        .ok () →
      addPlanting cols rows stored squares ids =
        .ok ((((squares.map (fun s => String.mk (s.data.map tsUpperChar))).zip ids).map
          (fun li => li.2 ++ " (" ++ li.1 ++ ")")), conflictWarnings stored squares)) := by
  refine ⟨?_, ?_, ?_⟩
  · simp [conflictWarnings, activeIn, buildWarnings_eq_map, conflictWarning]
  · simp [conflictWarnings, activeIn, buildWarnings_eq_map]
  · intro hval
    simp [addPlanting, hval, conflictWarnings]

/-- C3 witness: the spec's own example — active planting {A1: Tomato},
candidates ["A1", "A2"] flag exactly A1; candidates [] produce nothing; and
the write goes through with the warning attached. -/
theorem c3_witness :
    conflictWarnings [⟨"A1", "Tomato", "active"⟩] ["A1", "A2"] =
      ["A1 already has active planting: Tomato"] ∧
    conflictWarnings [⟨"A1", "Tomato", "active"⟩] [] = [] ∧
    addPlanting 4 4 [⟨"A1", "Tomato", "active"⟩] ["A1", "A2"] ["id1", "id2"] =
      .ok (["id1 (A1)", "id2 (A2)"],
        conflictWarnings [⟨"A1", "Tomato", "active"⟩] ["A1", "A2"]) := by
  refine ⟨rfl, (c3_conflict_detection [⟨"A1", "Tomato", "active"⟩] ["A1", "A2"]
    ["id1", "id2"] 4 4).2.1, ?_⟩
  exact (c3_conflict_detection [⟨"A1", "Tomato", "active"⟩] ["A1", "A2"]
    ["id1", "id2"] 4 4).2.2 rfl

/-- C10: "A1" and "A01" are different strings, both validate against a 4×4
garden, both denote column 1 row 1, yet a stored active planting on "A1"
yields no warning for candidate "A01" (string comparison), while the
candidate "A1" is flagged. -/
theorem c10_alias_labels :
    validateLabel "A1" 4 4 = .ok "A1" ∧
    validateLabel "A01" 4 4 = .ok "A01" ∧
    ("A1" : String) ≠ "A01" ∧
    labelColRow "A1" = some (1, 1) ∧
    labelColRow "A01" = some (1, 1) ∧
    conflictWarnings [⟨"A1", "Tomato", "active"⟩] ["A01"] = [] ∧
    conflictWarnings [⟨"A1", "Tomato", "active"⟩] ["A1"] =
      ["A1 already has active planting: Tomato"] :=
  ⟨rfl, rfl, by decide, rfl, rfl, rfl, rfl⟩

set_option maxRecDepth 8192 in
/-- The documentation built on a successful computation is never the empty
string (it starts with the static preamble), so the cache cell holding it is
truthy. -/
theorem fullInstructions_truthy (m : String) :
    cachedTruthy (some (fullInstructions m)) = true := by
  have hne : fullInstructions m ≠ "" := by
    intro h
    have hlen := congrArg String.length h
    rw [fullInstructions, String.length_append] at hlen
    have hp : 0 < instructionsPreamble.length := by decide
    simp only [String.length_empty] at hlen
    omega
  have hfalse : (fullInstructions m).isEmpty = false := by
    rw [Bool.eq_false_iff]
    intro hcontra
    exact hne ((String.isEmpty_iff _).mp hcontra)
  simp [cachedTruthy, hfalse]

/-- A call finding a truthy cache returns the cached string and leaves the
cell unchanged. -/
theorem fetch_cached_hit (m : String) (r : CatalogFetch) :
    fetchSchemaInstructions (some (fullInstructions m)) r =
      (fullInstructions m, some (fullInstructions m)) := by
  simp [fetchSchemaInstructions, fullInstructions_truthy m]

/-- C8: when any of the three catalog queries fails, the call returns the
static guidance text and caches nothing (the cell stays empty), and the
failure does not poison later calls: from the unchanged empty cell, a
successful catalog fetch computes and caches the full documentation. -/
theorem c8_catalog_failure (r : CatalogFetch) (cols : List ColumnInfo)
    (fks : List ForeignKey) (cks : List CheckConstraint)
    (h : hasCatalogError r = true) :
    fetchSchemaInstructions none r = (STATIC_INSTRUCTIONS, none) ∧
    runCalls none [r, ⟨.ok cols, .ok fks, .ok cks⟩] =
      ([STATIC_INSTRUCTIONS, fullInstructions (buildSchemaMarkdown cols fks cks)],
        some (fullInstructions (buildSchemaMarkdown cols fks cks))) := by
  have h1 : fetchSchemaInstructions none r = (STATIC_INSTRUCTIONS, none) := by
    obtain ⟨cr, fr, kr⟩ := r
    cases cr <;> cases fr <;> cases kr <;>
      simp_all [fetchSchemaInstructions, cachedTruthy, hasCatalogError, resHasError]
  have h2 : fetchSchemaInstructions none
      (⟨.ok cols, .ok fks, .ok cks⟩ : CatalogFetch) =
      (fullInstructions (buildSchemaMarkdown cols fks cks),
        some (fullInstructions (buildSchemaMarkdown cols fks cks))) := by
    simp [fetchSchemaInstructions, cachedTruthy]
  refine ⟨h1, ?_⟩
  simp [runCalls, h1, h2]

/-- C8 witness: a failing columns query yields the static text and an empty
cache. -/
theorem c8_witness :
    hasCatalogError ⟨.error "boom", .ok [], .ok []⟩ = true ∧
    fetchSchemaInstructions none ⟨.error "boom", .ok [], .ok []⟩ =
      (STATIC_INSTRUCTIONS, none) :=
  ⟨rfl, (c8_catalog_failure ⟨.error "boom", .ok [], .ok []⟩ [] [] [] rfl).1⟩

/-- C9: a successful computation stores the full documentation in the cache
cell, and from then on every call — whatever its catalog queries would have
returned, including failures — returns that identical cached string and
leaves the cell unchanged (no invalidation, no TTL). -/
theorem c9_cache_stability (cols : List ColumnInfo) (fks : List ForeignKey)
    (cks : List CheckConstraint) (rs : List CatalogFetch) :
    fetchSchemaInstructions none ⟨.ok cols, .ok fks, .ok cks⟩ =
      (fullInstructions (buildSchemaMarkdown cols fks cks),
        some (fullInstructions (buildSchemaMarkdown cols fks cks))) ∧
    runCalls (some (fullInstructions (buildSchemaMarkdown cols fks cks))) rs =
      (rs.map (fun _ => fullInstructions (buildSchemaMarkdown cols fks cks)),
        some (fullInstructions (buildSchemaMarkdown cols fks cks))) := by
  refine ⟨by simp [fetchSchemaInstructions, cachedTruthy], ?_⟩
  induction rs with
  | nil => rfl
  | cons r rest ih => simp [runCalls, fetch_cached_hit, ih]

theorem charOfNat_upper_toNat (r : Nat) (hr : r < 26) :
    (Char.ofNat (65 + r)).toNat = 65 + r := by
  interval_cases r <;> rfl

theorem colToLetterList_all_upper (n : Nat) :
    (colToLetterList n).all isUpperAlpha = true := by
  induction n using Nat.strong_induction_on with
  | _ n ih =>
    by_cases h : n = 0
    · subst h
      rw [colToLetterList]
      simp
    · rw [colToLetterList, dif_neg h]
      rw [List.all_append]
      have hrec := ih ((n - 1) / 26)
        (Nat.lt_of_le_of_lt (Nat.div_le_self _ _) (Nat.sub_lt (Nat.pos_of_ne_zero h) Nat.one_pos))
      rw [hrec]
      have hmod : (n - 1) % 26 < 26 := Nat.mod_lt _ (by omega)
      have htn := charOfNat_upper_toNat ((n - 1) % 26) hmod
      simp [isUpperAlpha, htn]
      omega

theorem colToLetterList_ne_nil (n : Nat) (h : n ≠ 0) : colToLetterList n ≠ [] := by
  rw [colToLetterList, dif_neg h]
  simp

theorem letterValue_append (xs : List Char) (c : Char) :
    letterValue (xs ++ [c]) = letterValue xs * 26 + (c.toNat - 64) := by
  simp [letterValue, List.foldl_append]

theorem letterValue_colToLetterList (n : Nat) :
    letterValue (colToLetterList n) = n := by
  induction n using Nat.strong_induction_on with
  | _ n ih =>
    by_cases h : n = 0
    · subst h
      rw [colToLetterList]
      simp [letterValue]
    · rw [colToLetterList, dif_neg h, letterValue_append]
      have hmod : (n - 1) % 26 < 26 := Nat.mod_lt _ (by omega)
      rw [charOfNat_upper_toNat _ hmod]
      rw [ih ((n - 1) / 26)
        (Nat.lt_of_le_of_lt (Nat.div_le_self _ _) (Nat.sub_lt (Nat.pos_of_ne_zero h) Nat.one_pos))]
      have hdm := Nat.div_add_mod (n - 1) 26
      omega

theorem map_tsUpperChar_of_upper (cs : List Char) (h : cs.all isUpperAlpha = true) :
    cs.map tsUpperChar = cs := by
  induction cs with
  | nil => rfl
  | cons c rest ih =>
    rw [List.all_cons, Bool.and_eq_true] at h
    have hc : tsUpperChar c = c := by
      have : c.toNat ≤ 90 := by
        have := h.1
        simp [isUpperAlpha] at this
        omega
      simp [tsUpperChar]
      omega
    simp [hc, ih h.2]

/-- C5: for every positive column index n up to 10000, decoding the encoded
column label restores it: decodeColumn(encodeColumn(n)) == n (the proof does
not use the upper bound). -/
theorem c5_roundTrip (n : Nat) (h1 : 1 ≤ n) (h2 : n ≤ 10000) :
    letterToCol (colToLetter n) = some n := by
  have hdata : (colToLetter n).data = colToLetterList n := rfl
  rw [letterToCol]
  simp only [hdata]
  rw [map_tsUpperChar_of_upper _ (colToLetterList_all_upper n)]
  rw [if_pos (⟨colToLetterList_ne_nil n (by omega), colToLetterList_all_upper n⟩ :
    colToLetterList n ≠ [] ∧ (colToLetterList n).all isUpperAlpha)]
  rw [letterValue_colToLetterList]

/-- C5 witness: the round trip at the three-letter label of 703 ("AAA"). -/
theorem c5_witness :
    1 ≤ 703 ∧ 703 ≤ 10000 ∧ letterToCol (colToLetter 703) = some 703 :=
  ⟨by decide, by decide, c5_roundTrip 703 (by decide) (by decide)⟩

theorem lexLt_append_last (c d : Char) :
    ∀ (as bs : List Char), as.length = bs.length → lexLtChars as bs = true →
      lexLtChars (as ++ [c]) (bs ++ [d]) = true := by
  intro as
  induction as with
  | nil =>
    intro bs hlen h
    cases bs with
    | nil => simp [lexLtChars] at h
    | cons b bs => simp at hlen
  | cons a as ih =>
    intro bs hlen h
    cases bs with
    | nil => simp at hlen
    | cons b bs =>
      simp only [lexLtChars, Bool.or_eq_true, Bool.and_eq_true, decide_eq_true_eq] at h
      simp only [List.cons_append, lexLtChars, Bool.or_eq_true, Bool.and_eq_true,
        decide_eq_true_eq]
      rcases h with h | ⟨heq, hrec⟩
      · exact Or.inl h
      · exact Or.inr ⟨heq, ih bs (by simpa using hlen) hrec⟩

theorem lexLt_same_prefix (c d : Char) (h : c.toNat < d.toNat) :
    ∀ P : List Char, lexLtChars (P ++ [c]) (P ++ [d]) = true := by
  intro P
  induction P with
  | nil => simp [lexLtChars, h]
  | cons p ps ih => simp [lexLtChars, ih]

theorem listColLt_append (x y : List Char) (c d : Char) (h : listColLt x y = true) :
    listColLt (x ++ [c]) (y ++ [d]) = true := by
  unfold listColLt at h ⊢
  by_cases h1 : x.length < y.length
  · rw [if_pos (by simp; omega : (x ++ [c]).length < (y ++ [d]).length)]
  · by_cases h2 : y.length < x.length
    · rw [if_neg h1, if_pos h2] at h
      exact absurd h (by simp)
    · have hlen : x.length = y.length := by omega
      rw [if_neg h1, if_neg h2] at h
      rw [if_neg (by simp; omega : ¬ (x ++ [c]).length < (y ++ [d]).length),
        if_neg (by simp; omega : ¬ (y ++ [d]).length < (x ++ [c]).length)]
      exact lexLt_append_last c d x y hlen h

theorem listColLt_colToLetter : ∀ n2 n1 : Nat, n1 < n2 →
    listColLt (colToLetterList n1) (colToLetterList n2) = true := by
  intro n2
  induction n2 using Nat.strong_induction_on with
  | _ n2 ih =>
    intro n1 hlt
    have hn2 : n2 ≠ 0 := by omega
    have e2 : colToLetterList n2 =
        colToLetterList ((n2 - 1) / 26) ++ [Char.ofNat (65 + (n2 - 1) % 26)] := by
      rw [colToLetterList]
      rw [dif_neg hn2]
    by_cases hn1 : n1 = 0
    · subst hn1
      have e1 : colToLetterList 0 = [] := by
        rw [colToLetterList]
        simp
      rw [e1, e2]
      unfold listColLt
      rw [if_pos (by simp : ([] : List Char).length <
        (colToLetterList ((n2 - 1) / 26) ++ [Char.ofNat (65 + (n2 - 1) % 26)]).length)]
    · have e1 : colToLetterList n1 =
          colToLetterList ((n1 - 1) / 26) ++ [Char.ofNat (65 + (n1 - 1) % 26)] := by
        rw [colToLetterList]
        rw [dif_neg hn1]
      have hm12 : (n1 - 1) / 26 ≤ (n2 - 1) / 26 := Nat.div_le_div_right (by omega)
      rcases Nat.lt_or_ge ((n1 - 1) / 26) ((n2 - 1) / 26) with hlt2 | hge
      · by_cases hm1z : (n1 - 1) / 26 = 0
        · have e1z : colToLetterList ((n1 - 1) / 26) = [] := by
            rw [hm1z]
            rw [colToLetterList]
            simp
          have hnall : colToLetterList ((n2 - 1) / 26) ≠ [] :=
            colToLetterList_ne_nil _ (by omega)
          have hpos : 0 < (colToLetterList ((n2 - 1) / 26)).length :=
            List.length_pos.mpr hnall
          rw [e1, e2, e1z]
          unfold listColLt
          rw [if_pos (by simp; omega)]
        · have hrec := ih ((n2 - 1) / 26)
            (by have := Nat.div_le_self (n2 - 1) 26; omega) ((n1 - 1) / 26) hlt2
          rw [e1, e2]
          exact listColLt_append _ _ _ _ hrec
      · have hmeq : (n1 - 1) / 26 = (n2 - 1) / 26 := by omega
        have hmod1 : (n1 - 1) % 26 < 26 := Nat.mod_lt _ (by omega)
        have hmod2 : (n2 - 1) % 26 < 26 := Nat.mod_lt _ (by omega)
        have hr : (n1 - 1) % 26 < (n2 - 1) % 26 := by
          have d1 := Nat.div_add_mod (n1 - 1) 26
          have d2 := Nat.div_add_mod (n2 - 1) 26
          rw [hmeq] at d1
          omega
        have hc : (Char.ofNat (65 + (n1 - 1) % 26)).toNat <
            (Char.ofNat (65 + (n2 - 1) % 26)).toNat := by
          rw [charOfNat_upper_toNat _ hmod1, charOfNat_upper_toNat _ hmod2]
          omega
        rw [e1, e2, hmeq]
        unfold listColLt
        rw [if_neg (by simp), if_neg (by simp)]
        exact lexLt_same_prefix _ _ hc _

/-- C6: encodeColumn is strictly monotonic — for positive n1 < n2 the label
of n1 precedes the label of n2 in the shorter-length-first, then
alphabetical ordering of spreadsheet column labels (the proof does not use
positivity of n1). -/
theorem c6_strict_monotone (n1 n2 : Nat) (h1 : 1 ≤ n1) (h2 : n1 < n2) :
    spreadsheetColLt (colToLetter n1) (colToLetter n2) = true :=
  listColLt_colToLetter n2 n1 h2

/-- C6 witness: the length boundary Z (26) against AA (27). -/
theorem c6_witness :
    1 ≤ 26 ∧ 26 < 27 ∧ spreadsheetColLt (colToLetter 26) (colToLetter 27) = true :=
  ⟨by decide, by decide, c6_strict_monotone 26 27 (by decide) (by decide)⟩

theorem all_takeWhile (p : Char → Bool) : ∀ l : List Char, ((l.takeWhile p).all p) = true := by
  intro l
  induction l with
  | nil => rfl
  | cons c rest ih =>
    by_cases h : p c
    · simp [List.takeWhile_cons, h, ih]
    · simp [List.takeWhile_cons, h]

theorem takeWhile_append_drop (p : Char → Bool) : ∀ cs : List Char,
    cs.takeWhile p ++ cs.drop (cs.takeWhile p).length = cs := by
  intro cs
  induction cs with
  | nil => rfl
  | cons c rest ih =>
    by_cases h : p c
    · simp [List.takeWhile_cons, h, ih]
    · simp [List.takeWhile_cons, h]

theorem split_some_decomp (cs a b : List Char) (h : splitLabelChars cs = some (a, b)) :
    cs = a ++ b ∧ a ≠ [] ∧ b ≠ [] ∧ a.all isUpperAlpha = true ∧ b.all isAsciiDigit = true := by
  unfold splitLabelChars at h
  by_cases hc : cs.takeWhile isUpperAlpha ≠ [] ∧
      cs.drop (cs.takeWhile isUpperAlpha).length ≠ [] ∧
      (cs.drop (cs.takeWhile isUpperAlpha).length).all isAsciiDigit
  · rw [if_pos hc] at h
    have hpair := Option.some.inj h
    have ha : cs.takeWhile isUpperAlpha = a := congrArg Prod.fst hpair
    have hbb : cs.drop (cs.takeWhile isUpperAlpha).length = b := congrArg Prod.snd hpair
    refine ⟨?_, ?_, ?_, ?_, ?_⟩
    · rw [← ha, ← hbb]
      exact (takeWhile_append_drop isUpperAlpha cs).symm
    · rw [← ha]; exact hc.1
    · rw [← hbb]; exact hc.2.1
    · rw [← ha]; exact all_takeWhile isUpperAlpha cs
    · rw [← hbb]; exact hc.2.2
  · rw [if_neg hc] at h
    exact absurd h (by simp)

theorem takeWhile_of_append (a b : List Char) (hb : b ≠ []) (hdig : b.all isAsciiDigit = true)
    (hup : a.all isUpperAlpha = true) : (a ++ b).takeWhile isUpperAlpha = a := by
  induction a with
  | nil =>
    simp only [List.nil_append]
    cases b with
    | nil => exact absurd rfl hb
    | cons x xs =>
      have hx : isAsciiDigit x = true := by
        rw [List.all_cons, Bool.and_eq_true] at hdig
        exact hdig.1
      have hnx : isUpperAlpha x = false := by
        simp only [isAsciiDigit, Bool.and_eq_true, decide_eq_true_eq] at hx
        simp only [isUpperAlpha, Bool.and_eq_true, decide_eq_true_eq]
        simp
        omega
      simp [List.takeWhile_cons, hnx]
  | cons c cs ih =>
    rw [List.all_cons, Bool.and_eq_true] at hup
    simp [List.takeWhile_cons, hup.1, ih hup.2]

theorem split_of_decomp (a b : List Char) (ha : a ≠ []) (hb : b ≠ [])
    (hup : a.all isUpperAlpha = true) (hdig : b.all isAsciiDigit = true) :
    splitLabelChars (a ++ b) = some (a, b) := by
  simp only [splitLabelChars, takeWhile_of_append a b hb hdig hup, List.drop_left]
  rw [if_pos ⟨ha, hb, hdig⟩]

theorem letterToCol_of_upper (a : List Char) (ha : a ≠ []) (hup : a.all isUpperAlpha = true) :
    letterToCol (String.mk a) = some (letterValue a) := by
  unfold letterToCol
  have hdata : (String.mk a).data = a := rfl
  simp only [hdata]
  rw [map_tsUpperChar_of_upper a hup]
  rw [if_pos ⟨ha, hup⟩]


/-- C4: label validation against a garden extent signals the
invalid-coordinate error when the (trimmed, uppercased) label is not a
nonempty letter block followed by a nonempty digit block; otherwise it
signals the column-range error — whose message reports the valid range A
through encodeColumn(columns) — when the decoded column index is below 1 or
above `cols`; otherwise the row-range error when the row is below 1 or above
`rows`; and on success accepts the label in its uppercased, trimmed form.
Over a label list, validation fails fast on the first invalid label in list
order, propagating that label's error. -/
theorem c4_validate (label : String) (cols rows : Nat) :
    (¬ (∃ a b : List Char, normalizeLabel label = a ++ b ∧ a ≠ [] ∧ b ≠ [] ∧
        a.all isUpperAlpha = true ∧ b.all isAsciiDigit = true) →
      validateLabel label cols rows = .error ("Invalid coordinate \"" ++ label ++
        "\". Expected format like \"A1\" or \"B3\" (letter column, number row).")) ∧
    (∀ a b : List Char, normalizeLabel label = a ++ b → a ≠ [] → b ≠ [] →
      a.all isUpperAlpha = true → b.all isAsciiDigit = true →
      letterToCol (String.mk a) = some (letterValue a) ∧
      ((letterValue a < 1 ∨ cols < letterValue a) →
        validateLabel label cols rows = .error ("Column \"" ++ String.mk a ++
          "\" is out of range for this grid (A–" ++ colToLetter cols ++ ").")) ∧
      (1 ≤ letterValue a → letterValue a ≤ cols →
        (digitsValue b < 1 ∨ rows < digitsValue b) →
        validateLabel label cols rows = .error ("Row " ++ toString (digitsValue b) ++
          " is out of range for this grid (1–" ++ toString rows ++ ").")) ∧
      (1 ≤ letterValue a → letterValue a ≤ cols → 1 ≤ digitsValue b →
        digitsValue b ≤ rows →
        validateLabel label cols rows = .ok (String.mk (a ++ b)))) ∧
    (∀ (rest : List String) (e : String), validateLabel label cols rows = .error e →
      validateLabels (label :: rest) cols rows = .error e) ∧
    (∀ (rest : List String) (v : String), validateLabel label cols rows = .ok v →
      validateLabels (label :: rest) cols rows = validateLabels rest cols rows) := by
  refine ⟨?_, ?_, ?_, ?_⟩
  · intro hno
    match hsplit : splitLabelChars (normalizeLabel label) with
    | some (a, b) =>
      obtain ⟨heq, ha, hb, hup, hdig⟩ := split_some_decomp _ a b hsplit
      exact absurd ⟨a, b, heq, ha, hb, hup, hdig⟩ hno
    | none =>
      simp [validateLabel, hsplit]
  · intro a b heq ha hb hup hdig
    have hsplit : splitLabelChars (normalizeLabel label) = some (a, b) := by
      rw [heq]
      exact split_of_decomp a b ha hb hup hdig
    have hcol : letterToCol (String.mk a) = some (letterValue a) :=
      letterToCol_of_upper a ha hup
    refine ⟨hcol, ?_, ?_, ?_⟩
    · intro hrange
      have hcond : letterValue a = 0 ∨ cols < letterValue a := by omega
      simp [validateLabel, hsplit, hcol, hcond]
    · intro hc1 hc2 hrange
      have hcolok : ¬ (letterValue a = 0 ∨ cols < letterValue a) := by omega
      have hcond : digitsValue b = 0 ∨ rows < digitsValue b := by omega
      simp [validateLabel, hsplit, hcol, hcolok, hcond]
    · intro hc1 hc2 hr1 hr2
      have hcolok : ¬ (letterValue a = 0 ∨ cols < letterValue a) := by omega
      have hrowok : ¬ (digitsValue b = 0 ∨ rows < digitsValue b) := by omega
      simp [validateLabel, hsplit, hcol, hcolok, hrowok]
      rw [heq]
  · intro rest e he
    simp [validateLabels, he]
  · intro rest v hv
    simp [validateLabels, hv]

/-- C4 witness: the specification's four examples on a 4×4 grid — "B3" is
accepted as "B3", "E1" is out of column range, "B9" out of row range, and
"3B" is an invalid label. -/
theorem c4_witness :
    validateLabel "B3" 4 4 = .ok "B3" ∧
    validateLabel "E1" 4 4 = .error ("Column \"E\" is out of range for this grid (A–" ++
      colToLetter 4 ++ ").") ∧
    validateLabel "B9" 4 4 = .error ("Row " ++ toString (9 : Nat) ++
      " is out of range for this grid (1–" ++ toString (4 : Nat) ++ ").") ∧
    validateLabel "3B" 4 4 = .error ("Invalid coordinate \"3B\". Expected format like \"A1\" or \"B3\" (letter column, number row).") := by
  refine ⟨?_, ?_, ?_, ?_⟩
  · have h := (((c4_validate "B3" 4 4).2.1 ['B'] ['3']
      (by decide) (by decide) (by decide) (by decide) (by decide)).2.2.2)
      (by decide) (by decide) (by decide) (by decide)
    simpa using h
  · have h := (((c4_validate "E1" 4 4).2.1 ['E'] ['1']
      (by decide) (by decide) (by decide) (by decide) (by decide)).2.1)
      (Or.inr (by decide))
    simpa using h
  · have h := (((c4_validate "B9" 4 4).2.1 ['B'] ['9']
      (by decide) (by decide) (by decide) (by decide) (by decide)).2.2.1)
      (by decide) (by decide) (Or.inr (by decide))
    simpa using h
  · refine (c4_validate "3B" 4 4).1 ?_
    rintro ⟨a, b, heq, ha, hb, hup, hdig⟩
    have h0 : normalizeLabel "3B" = ['3', 'B'] := rfl
    rw [h0] at heq
    cases a with
    | nil => exact ha rfl
    | cons x xs =>
      have hx : ('3' : Char) = x := by
        have := congrArg (fun l => l.head?) heq
        simpa using this
      rw [List.all_cons, Bool.and_eq_true] at hup
      rw [← hx] at hup
      exact absurd hup.1 (by decide)

end SFGarden
